import Mathlib

/-!
# Verification of the sqlx argument-binding and wire-encoding subsystem

A shallow embedding of the argument bags, wire buffers and generic-facade
type reduction of the repository, together with theorems settling the
specification claims about them.

Embedding conventions:
* `Vec<u8>` buffers become `List Nat` (each entry a byte value `< 256`);
* `usize` counters become `Nat`; the 32-bit signed bound is explicit;
* fallible Rust functions returning `Result<T, E>` become `Except String T`
  (all error payloads are reduced to their message strings);
* a Rust method taking `&mut self` becomes a Lean function returning the
  updated state; a method that both mutates and may fail returns the
  post-call state together with `Option String` (`none` = success), since
  the Rust caller keeps the partially-mutated state on failure;
* a type-erased bound value (`Arc<dyn EncodeOwned<DB>>` / `T: Encode<DB>`)
  becomes a structure bundling the capabilities the buffer code actually
  invokes: a size hint, a declared type, an optional vector length, and an
  encode step.  The encode step is modelled as a function from the buffer
  state to the effect it has on the buffer.  Rust `Encode` impls live
  outside the buffer module, so they can rewrite the raw byte vector
  (through `DerefMut<Target = Vec<u8>>`) and append patches and type holes
  (through `patch` / `patch_type_by_name` / `patch_array_type`), but they
  cannot touch the private `count` field nor remove existing patches or
  holes; the effect type records exactly that interface.
-/

namespace Sqlx

/-- Modelled from the spec: the `IsNull` result of an encode step.
`sqlx_core::encode::IsNull` is defined outside the provided sources; the
two variants and the `is_null` accessor are taken from their uses in
`src/sqlx-mysql/src/arguments.rs` and `src/sqlx-postgres/src/arguments.rs`
and from the spec's NULL-sentinel contract. -/
inductive IsNull where
  | Yes
  | No
deriving DecidableEq, Repr

/-- `IsNull::is_null` -/
def IsNull.is_null : IsNull → Bool
  | .Yes => true
  | .No => false

/-- The 32-bit signed integer maximum, `i32::MAX`. -/
def I32_MAX : Nat := 2147483647

/-- `value_size_int4_checked` from `src/sqlx-postgres/src/arguments.rs`:
`i32::try_from(size)` succeeds exactly when `size <= i32::MAX`, and the
error message names the offending size. -/
def value_size_int4_checked (size : Nat) : Except String Int :=
  if size ≤ I32_MAX then
    .ok (Int.ofNat size)
  else
    .error ("value size would overflow in the binary protocol encoding: "
      ++ toString size ++ " > " ++ toString I32_MAX)

/-- Big-endian byte serialization of an `i32` (`i32::to_be_bytes`), on the
two's-complement representative of `n`. -/
def i32ToBeBytes (n : Int) : List Nat :=
  let u := (n % (4294967296 : Int)).toNat
  [u / 16777216 % 256, u / 65536 % 256, u / 256 % 256, u % 256]

/-- `buffer[offset..offset+src.length].copy_from_slice(src)`: overwrite the
slice of `l` starting at `off` with `src`. -/
def writeBytesAt (l : List Nat) (off : Nat) (src : List Nat) : List Nat :=
  l.take off ++ src ++ l.drop (off + src.length)

end Sqlx

namespace Sqlx.Pg

/-- Modelled from the spec: the Postgres concrete wire types.  The full
`PgType` enum lives in `sqlx-postgres/src/type_info.rs`, which is not
among the provided sources; the constructors here are the ones the
`TryFrom<&PgTypeInfo>` match in `src/sqlx-postgres/src/any.rs` names,
plus a representative sample of the remaining concrete wire types (all of
which fall to the catch-all arm), and `DeclareWithName` carrying its type
name string (`UStr`). -/
inductive PgType where
  | Bool
  | Void
  | Int2
  | Int4
  | Int8
  | Float4
  | Float8
  | Bytea
  | Text
  | Varchar
  | Money
  | Date
  | Time
  | Timestamp
  | Timestamptz
  | Interval
  | Numeric
  | Uuid
  | Json
  | Record
  | Oid
  | Char
  | Name
  | DeclareWithName (name : String)
deriving DecidableEq, Repr

/-- `PgTypeInfo` wraps a `PgType` (field `0` in the source). -/
structure PgTypeInfo where
  ty : PgType
deriving DecidableEq, Repr

/-- Debug rendering of a `PgType`, used in the facade's unsupported-type
error message (`format!("... {pg_type:?}")`). -/
def PgType.render : PgType → String
  | .Bool => "Bool"
  | .Void => "Void"
  | .Int2 => "Int2"
  | .Int4 => "Int4"
  | .Int8 => "Int8"
  | .Float4 => "Float4"
  | .Float8 => "Float8"
  | .Bytea => "Bytea"
  | .Text => "Text"
  | .Varchar => "Varchar"
  | .Money => "Money"
  | .Date => "Date"
  | .Time => "Time"
  | .Timestamp => "Timestamp"
  | .Timestamptz => "Timestamptz"
  | .Interval => "Interval"
  | .Numeric => "Numeric"
  | .Uuid => "Uuid"
  | .Json => "Json"
  | .Record => "Record"
  | .Oid => "Oid"
  | .Char => "Char"
  | .Name => "Name"
  | .DeclareWithName n => "DeclareWithName " ++ n

/-- A pending patch (`Patch` in `src/sqlx-postgres/src/arguments.rs`): an
offset into the buffer, the index of the owning argument, and the fix-up
callback that rewrites the byte slice once the parameter type is known. -/
structure Patch where
  buf_offset : Nat
  arg_index : Nat
  callback : List Nat → PgTypeInfo → List Nat

/-- `HoleKind` from `src/sqlx-postgres/src/arguments.rs`: a deferred type
lookup keyed either by type name or by array element descriptor (the
`PgArrayOf` payload is reduced to its element type name). -/
inductive HoleKind where
  | Type (name : String)
  | Array (elem : String)

/-- `PgArgumentBuffer`: byte buffer, argument count, pending patches, and
pending type holes (offset paired with the hole kind). -/
structure PgArgumentBuffer where
  buffer : List Nat
  count : Nat
  patches : List Patch
  type_holes : List (Nat × HoleKind)

/-- `PgArgumentBuffer::default()` -/
def PgArgumentBuffer.empty : PgArgumentBuffer :=
  { buffer := [], count := 0, patches := [], type_holes := [] }

instance : Inhabited PgArgumentBuffer := ⟨PgArgumentBuffer.empty⟩

/-- The effect a value's encode step has on a `PgArgumentBuffer`.  A Rust
`Encode` impl receives `&mut PgArgumentBuffer`; outside the buffer's own
module it can rewrite the raw bytes (via `DerefMut<Target = Vec<u8>>`) and
append patches and type holes (via `patch`, `patch_type_by_name`,
`patch_array_type`), but the private `count` field and the existing
patch/hole entries are inaccessible to it. -/
structure EncodeEffect where
  /-- the full byte buffer after the encode step ran -/
  bytes : List Nat
  /-- patches appended by the encode step -/
  newPatches : List Patch
  /-- type holes appended by the encode step -/
  newHoles : List (Nat × HoleKind)
  /-- the step's `Result<IsNull, BoxDynError>` -/
  result : Except String IsNull

/-- A type-erased bound value for Postgres: the capabilities of
`T: Encode<Postgres> + Type<Postgres>` / `Arc<dyn EncodeOwned<Postgres>>`
that the code in the provided sources invokes (`size_hint`, `produces`,
`type_info`, `vector_len`, and the encode step itself). -/
structure PgValue where
  sizeHint : Nat
  produces : Option PgTypeInfo
  typeInfo : PgTypeInfo
  vectorLen : Option Nat
  encodeFn : PgArgumentBuffer → EncodeEffect

/-- Apply an encode step's effect to the buffer state. -/
def PgArgumentBuffer.applyEffect (b : PgArgumentBuffer) (e : EncodeEffect) :
    PgArgumentBuffer :=
  { buffer := e.bytes
    count := b.count
    patches := b.patches ++ e.newPatches
    type_holes := b.type_holes ++ e.newHoles }

/-- `PgArgumentBufferSnapshot`: the four counters captured before an encode. -/
structure PgArgumentBufferSnapshot where
  buffer_length : Nat
  count : Nat
  patches_length : Nat
  type_holes_length : Nat

/-- `PgArgumentBuffer::snapshot` -/
def PgArgumentBuffer.snapshot (b : PgArgumentBuffer) : PgArgumentBufferSnapshot :=
  { buffer_length := b.buffer.length
    count := b.count
    patches_length := b.patches.length
    type_holes_length := b.type_holes.length }

/-- `PgArgumentBuffer::reset_to_snapshot`: truncate buffer, patches and
type holes back to the snapshot lengths and restore the count. -/
def PgArgumentBuffer.reset_to_snapshot (b : PgArgumentBuffer)
    (s : PgArgumentBufferSnapshot) : PgArgumentBuffer :=
  { buffer := b.buffer.take s.buffer_length
    count := s.count
    patches := b.patches.take s.patches_length
    type_holes := b.type_holes.take s.type_holes_length }

/-- `PgArgumentBuffer::encode`: check the size hint against the `i32`
limit, reserve a zeroed 4-byte length slot, run the value's encode step,
check the realized size for a non-NULL value (or select the `-1` NULL
sentinel), then backpatch the slot with the big-endian length.  Returns
the post-call buffer state together with `none` on success or the error
message (the Rust caller keeps the partially-mutated buffer on failure). -/
def PgArgumentBuffer.encode (b : PgArgumentBuffer) (v : PgValue) :
    PgArgumentBuffer × Option String :=
  match value_size_int4_checked v.sizeHint with
  | .error e => (b, some e)
  | .ok _ =>
    let offset := b.buffer.length
    let b1 : PgArgumentBuffer := { b with buffer := b.buffer ++ [0, 0, 0, 0] }
    let eff := v.encodeFn b1
    let b2 := b1.applyEffect eff
    match eff.result with
    | .error e => (b2, some e)
    | .ok .No =>
      match value_size_int4_checked (b2.buffer.length - offset - 4) with
      | .error e => (b2, some e)
      | .ok len =>
        ({ b2 with buffer := writeBytesAt b2.buffer offset (i32ToBeBytes len) },
          none)
    | .ok .Yes =>
      ({ b2 with buffer := writeBytesAt b2.buffer offset (i32ToBeBytes (-1)) },
        none)

/-- `PgArgumentBuffer::encode_ref`: textually duplicated from `encode` in
the source (differing only in taking the value by reference), so its body
repeats `encode`'s steps. -/
def PgArgumentBuffer.encode_ref (b : PgArgumentBuffer) (v : PgValue) :
    PgArgumentBuffer × Option String :=
  match value_size_int4_checked v.sizeHint with
  | .error e => (b, some e)
  | .ok _ =>
    let offset := b.buffer.length
    let b1 : PgArgumentBuffer := { b with buffer := b.buffer ++ [0, 0, 0, 0] }
    let eff := v.encodeFn b1
    let b2 := b1.applyEffect eff
    match eff.result with
    | .error e => (b2, some e)
    | .ok .No =>
      match value_size_int4_checked (b2.buffer.length - offset - 4) with
      | .error e => (b2, some e)
      | .ok len =>
        ({ b2 with buffer := writeBytesAt b2.buffer offset (i32ToBeBytes len) },
          none)
    | .ok .Yes =>
      ({ b2 with buffer := writeBytesAt b2.buffer offset (i32ToBeBytes (-1)) },
        none)

/-- `PgArgumentBuffer::patch_type_by_name`: reserve a zeroed 4-byte OID
slot and record the hole with its type name. -/
def PgArgumentBuffer.patch_type_by_name (b : PgArgumentBuffer)
    (type_name : String) : PgArgumentBuffer :=
  { b with
    buffer := b.buffer ++ [0, 0, 0, 0]
    type_holes := b.type_holes ++ [(b.buffer.length, HoleKind.Type type_name)] }

/-- `PgArgumentsInner`: the recorded parameter types plus the wire buffer. -/
structure PgArgumentsInner where
  types : List PgTypeInfo
  buffer : PgArgumentBuffer

/-- `PgArgumentsInner::default()` -/
def PgArgumentsInner.empty : PgArgumentsInner :=
  { types := [], buffer := PgArgumentBuffer.empty }

instance : Inhabited PgArgumentsInner := ⟨PgArgumentsInner.empty⟩

/-- `PgArgumentsInner::add`: snapshot, encode, roll back on failure;
on success record the type and bump the count. -/
def PgArgumentsInner.add (s : PgArgumentsInner) (v : PgValue) :
    PgArgumentsInner × Option String :=
  let type_info := v.produces.getD v.typeInfo
  let snap := s.buffer.snapshot
  match s.buffer.encode v with
  | (b, some e) => ({ s with buffer := b.reset_to_snapshot snap }, some e)
  | (b, none) =>
    ({ types := s.types ++ [type_info]
       buffer := { b with count := b.count + 1 } }, none)

/-- `PgArgumentsInner::add_ref`: identical discipline to `add`, going
through `encode_ref`. -/
def PgArgumentsInner.add_ref (s : PgArgumentsInner) (v : PgValue) :
    PgArgumentsInner × Option String :=
  let type_info := v.produces.getD v.typeInfo
  let snap := s.buffer.snapshot
  match s.buffer.encode_ref v with
  | (b, some e) => ({ s with buffer := b.reset_to_snapshot snap }, some e)
  | (b, none) =>
    ({ types := s.types ++ [type_info]
       buffer := { b with count := b.count + 1 } }, none)

/-- An encode step that only ever appends to the byte buffer (it never
truncates or rewrites bytes that were already present).  This is the
behaviour of every `Encode` impl the crate ships (they write through
`extend`-style operations), and the rollback comments in
`PgArgumentsInner::add` assume it. -/
def PgValue.Appending (v : PgValue) : Prop :=
  ∀ b : PgArgumentBuffer, ∃ extra : List Nat, (v.encodeFn b).bytes = b.buffer ++ extra

end Sqlx.Pg

namespace Sqlx.MySql

/-- Modelled from the spec: the MySQL concrete column types.  The full
`ColumnType` enum lives in `sqlx-mysql/src/protocol/text/column.rs`, which
is not among the provided sources; the constructors here are the ones the
`TryFrom<&MySqlTypeInfo>` match in `src/sqlx-mysql/src/any.rs` names,
plus a representative sample of the remaining wire column types (all of
which fall to the catch-all arm). -/
inductive ColumnType where
  | Null
  | Short
  | Long
  | LongLong
  | Float
  | Double
  | Blob
  | TinyBlob
  | MediumBlob
  | LongBlob
  | String
  | VarString
  | VarChar
  | Tiny
  | Int24
  | Decimal
  | NewDecimal
  | Date
  | Time
  | Datetime
  | Timestamp
  | Year
  | Bit
  | Enum
  | Set
  | Geometry
  | Json
deriving DecidableEq, Repr

/-- `MySqlTypeInfo` carries its `ColumnType` (field `type` in the source;
the flag/charset/max-size fields are not consulted by any provided code). -/
structure MySqlTypeInfo where
  ty : ColumnType
deriving DecidableEq, Repr

/-- Debug rendering of a `ColumnType`, used in the facade's
unsupported-type error message. -/
def columnTypeRender : ColumnType → String
  | .Null => "Null"
  | .Short => "Short"
  | .Long => "Long"
  | .LongLong => "LongLong"
  | .Float => "Float"
  | .Double => "Double"
  | .Blob => "Blob"
  | .TinyBlob => "TinyBlob"
  | .MediumBlob => "MediumBlob"
  | .LongBlob => "LongBlob"
  | .String => "String"
  | .VarString => "VarString"
  | .VarChar => "VarChar"
  | .Tiny => "Tiny"
  | .Int24 => "Int24"
  | .Decimal => "Decimal"
  | .NewDecimal => "NewDecimal"
  | .Date => "Date"
  | .Time => "Time"
  | .Datetime => "Datetime"
  | .Timestamp => "Timestamp"
  | .Year => "Year"
  | .Bit => "Bit"
  | .Enum => "Enum"
  | .Set => "Set"
  | .Geometry => "Geometry"
  | .Json => "Json"

/-- The effect a MySQL encode step has: the value's `encode` receives
`&mut Vec<u8>` (the raw byte vector only), so the effect is the new byte
vector plus the step's `Result<IsNull, BoxDynError>`. -/
structure EncodeEffect where
  bytes : List Nat
  result : Except String IsNull

/-- A type-erased bound value for MySQL: the capabilities of
`T: Encode<MySql> + Type<MySql>` / `Arc<dyn EncodeOwned<MySql>>` that the
provided code invokes. -/
structure MySqlValue where
  produces : Option MySqlTypeInfo
  typeInfo : MySqlTypeInfo
  vectorLen : Option Nat
  encodeFn : List Nat → EncodeEffect

/-- An encode step that only ever appends to the byte vector. -/
def MySqlValue.Appending (v : MySqlValue) : Prop :=
  ∀ bytes : List Nat, ∃ extra : List Nat, (v.encodeFn bytes).bytes = bytes ++ extra

/-- `NullBitMap` from `src/sqlx-mysql/src/arguments.rs`: byte-packed null
markers plus the number of bits pushed so far. -/
structure NullBitMap where
  bytes : List Nat
  length : Nat
deriving DecidableEq, Repr

/-- `NullBitMap::default()` -/
def NullBitMap.empty : NullBitMap := { bytes := [], length := 0 }

instance : Inhabited NullBitMap := ⟨NullBitMap.empty⟩

/-- `NullBitMap::push`: compute the byte index and bit offset of the next
bit, push a fresh zero byte when the offset wrapped to a new byte, and OR
the null flag into place (least-significant-bit first). -/
def NullBitMap.push (m : NullBitMap) (is_null : IsNull) : NullBitMap :=
  let byteIndex := m.length / 8
  let bitOffset := m.length % 8
  let bytes := if bitOffset = 0 then m.bytes ++ [0] else m.bytes
  { bytes := bytes.set byteIndex
      ((bytes.getD byteIndex 0) ||| ((if is_null.is_null then 1 else 0) <<< bitOffset))
    length := m.length + 1 }

/-- Bit `i` of the bitmap: bit `i % 8` of byte `i / 8` (missing bytes read
as zero). -/
def NullBitMap.testBit (m : NullBitMap) (i : Nat) : Bool :=
  (m.bytes.getD (i / 8) 0).testBit (i % 8)

/-- `MySqlArgumentsPositional`: parallel collections of encoded bytes,
declared types, and the null bitmap. -/
structure MySqlArgumentsPositional where
  values : List Nat
  types : List MySqlTypeInfo
  null_bitmap : NullBitMap

/-- `MySqlArgumentsPositional::default()` -/
def MySqlArgumentsPositional.empty : MySqlArgumentsPositional :=
  { values := [], types := [], null_bitmap := NullBitMap.empty }

instance : Inhabited MySqlArgumentsPositional := ⟨MySqlArgumentsPositional.empty⟩

/-- `MySqlArgumentsPositional::add`: encode into the value buffer; on
failure truncate the buffer back and report the error; on success record
the declared type and push the null-bitmap bit. -/
def MySqlArgumentsPositional.add (s : MySqlArgumentsPositional) (v : MySqlValue) :
    MySqlArgumentsPositional × Option String :=
  let ty := v.produces.getD v.typeInfo
  let value_length_before_encoding := s.values.length
  let eff := v.encodeFn s.values
  match eff.result with
  | .error e =>
    ({ s with values := eff.bytes.take value_length_before_encoding }, some e)
  | .ok is_null =>
    ({ values := eff.bytes
       types := s.types ++ [ty]
       null_bitmap := s.null_bitmap.push is_null }, none)

end Sqlx.MySql

namespace Sqlx

/-- `ArgumentIndex` from `src/sqlx-core/src/arguments.rs`: positional or
named lookup key. -/
inductive ArgumentIndex where
  | Positioned (i : Nat)
  | Named (n : String)
deriving DecidableEq, Repr

/-- `Display` for `ArgumentIndex`: the position or the name. -/
def ArgumentIndex.render : ArgumentIndex → String
  | .Positioned i => toString i
  | .Named n => n

/-- Modelled from the spec: a placeholder occurrence as consulted by
`get_kind`.  The `Placeholder` struct lives in
`sqlx-core/src/placeholders.rs`, which is not among the provided sources;
the provided code reads only its `kleene` field (the optional trailing
expansion marker), so the occurrence is reduced to that flag. -/
structure Placeholder where
  kleene : Option Unit

/-- Modelled from the spec: `ArgumentKind` from
`sqlx-core/src/placeholders.rs` (not among the provided sources) — the
resolved kind of a placeholder occurrence, scalar or vector with its
length, as constructed by `get_kind` in the provided sources. -/
inductive ArgumentKind where
  | Scalar
  | Vector (len : Nat)
deriving DecidableEq, Repr

/-- `BTreeMap::insert` on an association list: replace the binding if the
key is present, otherwise append it. -/
def mapInsert {V : Type} : List (String × V) → String → V → List (String × V)
  | [], k, v => [(k, v)]
  | (k', v') :: rest, k, v =>
    if k' = k then (k, v) :: rest else (k', v') :: mapInsert rest k v

/-- `BTreeMap::get` on an association list. -/
def mapGet {V : Type} : List (String × V) → String → Option V
  | [], _ => none
  | (k', v') :: rest, k => if k' = k then some v' else mapGet rest k

end Sqlx

namespace Sqlx.Pg

/-- `PgArguments`: the unresolved bag of positional values plus the
name-to-value map (`BTreeMap`, modelled as an association list with
replace-on-insert). -/
structure PgArguments where
  positional : List PgValue
  named : List (String × PgValue)

/-- `PgArguments::default()` -/
def PgArguments.empty : PgArguments := { positional := [], named := [] }

instance : Inhabited PgArguments := ⟨PgArguments.empty⟩

/-- `PgArguments::get`: look a value up by positional or named index. -/
def PgArguments.get (a : PgArguments) (index : ArgumentIndex) : Option PgValue :=
  match index with
  | .Positioned i => a.positional.get? i
  | .Named n => mapGet a.named n

/-- `PgArguments::get_kind`: resolve a placeholder occurrence's argument
kind.  The `&mut bool` expansion flag becomes explicit state passing: the
function takes the flag's current value and returns its new value
alongside the kind. -/
def PgArguments.get_kind (a : PgArguments) (index : ArgumentIndex)
    (place : Placeholder) (has_expansion : Bool) :
    Except String (ArgumentKind × Bool) :=
  match a.get index with
  | none => .error "unknown argument"
  | some arg =>
    match place.kleene with
    | some _ =>
      match arg.vectorLen with
      | none => .error "expected vector for argument"
      | some len => .ok (ArgumentKind.Vector len, true)
    | none => .ok (ArgumentKind.Scalar, has_expansion)

/-- `Arguments::add` for `PgArguments`: push the erased value at the end of
the positional list. -/
def PgArguments.add (a : PgArguments) (v : PgValue) : PgArguments :=
  { a with positional := a.positional ++ [v] }

/-- `Arguments::add_named` for `PgArguments`: insert into the name map,
overwriting any prior value under that name. -/
def PgArguments.add_named (a : PgArguments) (name : String) (v : PgValue) :
    PgArguments :=
  { a with named := mapInsert a.named name v }

/-- `Arguments::len` for `PgArguments`: the positional count only. -/
def PgArguments.len (a : PgArguments) : Nat :=
  a.positional.length

/-- `Arguments::format_placeholder` for `PgArguments`: writes `$` followed
by the positional count. -/
def PgArguments.format_placeholder (a : PgArguments) : String :=
  "$" ++ toString a.positional.length

/-- Fold of `PgArgumentsInner::add_ref` over the positional values,
aborting at the first failure (the `?` inside the `for` loop of
`try_into_only_positional`). -/
def addRefAll (s : PgArgumentsInner) : List PgValue → Except String PgArgumentsInner
  | [] => .ok s
  | v :: rest =>
    match s.add_ref v with
    | (s1, none) => addRefAll s1 rest
    | (_, some e) => .error e

/-- `PgArguments::try_into_only_positional`: fold the positional values
into a fresh `PgArgumentsInner` via `add_ref`; the named map is not
consulted. -/
def PgArguments.try_into_only_positional (a : PgArguments) :
    Except String PgArgumentsInner :=
  addRefAll PgArgumentsInner.empty a.positional

end Sqlx.Pg

namespace Sqlx.MySql

open Sqlx

/-- `MySqlArguments`: the unresolved bag of positional values plus the
name-to-value map. -/
structure MySqlArguments where
  positional : List MySqlValue
  named : List (String × MySqlValue)

/-- `MySqlArguments::default()` -/
def MySqlArguments.empty : MySqlArguments := { positional := [], named := [] }

instance : Inhabited MySqlArguments := ⟨MySqlArguments.empty⟩

/-- `MySqlArguments::get` -/
def MySqlArguments.get (a : MySqlArguments) (index : ArgumentIndex) :
    Option MySqlValue :=
  match index with
  | .Positioned i => a.positional.get? i
  | .Named n => mapGet a.named n

/-- `MySqlArguments::get_kind`: textually the same resolution as the
Postgres version. -/
def MySqlArguments.get_kind (a : MySqlArguments) (index : ArgumentIndex)
    (place : Placeholder) (has_expansion : Bool) :
    Except String (ArgumentKind × Bool) :=
  match a.get index with
  | none => .error "unknown argument"
  | some arg =>
    match place.kleene with
    | some _ =>
      match arg.vectorLen with
      | none => .error "expected vector for argument"
      | some len => .ok (ArgumentKind.Vector len, true)
    | none => .ok (ArgumentKind.Scalar, has_expansion)

/-- `Arguments::add` for `MySqlArguments`. -/
def MySqlArguments.add (a : MySqlArguments) (v : MySqlValue) : MySqlArguments :=
  { a with positional := a.positional ++ [v] }

/-- `Arguments::add_named` for `MySqlArguments`. -/
def MySqlArguments.add_named (a : MySqlArguments) (name : String) (v : MySqlValue) :
    MySqlArguments :=
  { a with named := mapInsert a.named name v }

/-- `Arguments::len` for `MySqlArguments`: the positional count only. -/
def MySqlArguments.len (a : MySqlArguments) : Nat :=
  a.positional.length

end Sqlx.MySql

namespace Sqlx.Any

open Sqlx

/-- Modelled from the spec: `AnyTypeInfoKind`, the reduced generic
classification of value kinds.  `sqlx-core/src/any/type_info.rs` is not
among the provided sources; the variants are the ones constructed by the
two `TryFrom` impls in `src/sqlx-postgres/src/any.rs` and
`src/sqlx-mysql/src/any.rs`. -/
inductive AnyTypeInfoKind where
  | Null
  | Bool
  | SmallInt
  | Integer
  | BigInt
  | Real
  | Double
  | Blob
  | Text
deriving DecidableEq, Repr

/-- `AnyTypeInfo` wraps its kind. -/
structure AnyTypeInfo where
  kind : AnyTypeInfoKind
deriving DecidableEq, Repr

/-- `impl TryFrom<&PgTypeInfo> for AnyTypeInfo` from
`src/sqlx-postgres/src/any.rs`: the fixed reduction table, with every
unlisted concrete type failing with a message naming it. -/
def AnyTypeInfo.try_from_pg (pg_type : Pg.PgTypeInfo) :
    Except String AnyTypeInfo :=
  match pg_type.ty with
  | .Bool => .ok ⟨.Bool⟩
  | .Void => .ok ⟨.Null⟩
  | .Int2 => .ok ⟨.SmallInt⟩
  | .Int4 => .ok ⟨.Integer⟩
  | .Int8 => .ok ⟨.BigInt⟩
  | .Float4 => .ok ⟨.Real⟩
  | .Float8 => .ok ⟨.Double⟩
  | .Bytea => .ok ⟨.Blob⟩
  | .Text => .ok ⟨.Text⟩
  | .Varchar => .ok ⟨.Text⟩
  | .DeclareWithName n =>
    if n = "citext" then .ok ⟨.Text⟩
    else .error ("Any driver does not support the Postgres type "
      ++ Pg.PgType.render (.DeclareWithName n))
  | other => .error ("Any driver does not support the Postgres type "
      ++ Pg.PgType.render other)

/-- `impl TryFrom<&MySqlTypeInfo> for AnyTypeInfo` from
`src/sqlx-mysql/src/any.rs`: the fixed reduction table, with every
unlisted column type failing with a message naming it. -/
def AnyTypeInfo.try_from_mysql (type_info : MySql.MySqlTypeInfo) :
    Except String AnyTypeInfo :=
  match type_info.ty with
  | .Null => .ok ⟨.Null⟩
  | .Short => .ok ⟨.SmallInt⟩
  | .Long => .ok ⟨.Integer⟩
  | .LongLong => .ok ⟨.BigInt⟩
  | .Float => .ok ⟨.Real⟩
  | .Double => .ok ⟨.Double⟩
  | .Blob => .ok ⟨.Blob⟩
  | .TinyBlob => .ok ⟨.Blob⟩
  | .MediumBlob => .ok ⟨.Blob⟩
  | .LongBlob => .ok ⟨.Blob⟩
  | .String => .ok ⟨.Text⟩
  | .VarString => .ok ⟨.Text⟩
  | .VarChar => .ok ⟨.Text⟩
  | other => .error ("Any driver does not support MySql type "
      ++ MySql.columnTypeRender other)

end Sqlx.Any

namespace Sqlx.Any

/-- Modelled from the spec: a type-erased value of the generic facade's
argument bag (`AnyArguments`' value type, in `sqlx-core/src/any/arguments.rs`,
is not among the provided sources).  Per the spec, the facade "converts
the bag into the concrete backend's positional+named form (failure
surfaces as an encode error)", so the value is reduced to the outcome of
its fallible conversion into a concrete Postgres value. -/
structure AnyValue where
  toPg : Except String Pg.PgValue

/-- Modelled from the spec: the generic argument bag — an ordered sequence
of positional type-erased values plus a name-to-value mapping. -/
structure AnyArguments where
  positional : List AnyValue
  named : List (String × AnyValue)

/-- Modelled from the spec: pointwise conversion of the positional
values, aborting at the first failing value. -/
def convertAllPg : List AnyValue → Except String (List Pg.PgValue)
  | [] => .ok []
  | v :: rest =>
    match v.toPg with
    | .error e => .error e
    | .ok pv =>
      match convertAllPg rest with
      | .error e => .error e
      | .ok pvs => .ok (pv :: pvs)

/-- Modelled from the spec: pointwise conversion of the named values,
aborting at the first failing value. -/
def convertNamedPg : List (String × AnyValue) → Except String (List (String × Pg.PgValue))
  | [] => .ok []
  | (n, v) :: rest =>
    match v.toPg with
    | .error e => .error e
    | .ok pv =>
      match convertNamedPg rest with
      | .error e => .error e
      | .ok pvs => .ok ((n, pv) :: pvs)

/-- Modelled from the spec: `AnyArguments::convert_into` (defined in
`sqlx-core/src/any/arguments.rs`, which is not among the provided
sources) converts the generic bag into the concrete backend's
positional+named form, value by value, preserving both the positional
order and the name map; any value's conversion failure surfaces as an
encode error. -/
def AnyArguments.convert_into_pg (a : AnyArguments) :
    Except String Pg.PgArguments :=
  match convertAllPg a.positional with
  | .error e => .error e
  | .ok pos =>
    match convertNamedPg a.named with
    | .error e => .error e
    | .ok nmd => .ok { positional := pos, named := nmd }

end Sqlx.Any

namespace Sqlx.Pg

/-- `sql_and_args` from `src/sqlx-postgres/src/any.rs` (the function the
facade's `fetch_many` actually calls): convert the optional generic bag
into `PgArguments`, then fold it into a strictly positional
`PgArgumentsInner` via `try_into_only_positional`; the SQL text is
returned unchanged. -/
def sql_and_args (query : String) (arguments : Option Any.AnyArguments) :
    Except String (String × Option PgArgumentsInner) :=
  match arguments with
  | none => .ok (query, none)
  | some a =>
    match a.convert_into_pg with
    | .error e => .error e
    | .ok args =>
      match args.try_into_only_positional with
      | .error e => .error e
      | .ok positional => .ok (query, some positional)

/-- Modelled from the spec: the placeholder expander
(`sqlx-core/src/placeholders.rs`, not among the provided sources)
receives `get_kind`'s error string and reports it "naming the index" per
the spec; the wrapper appends the offending index to the message. -/
def resolveKind (a : PgArguments) (index : ArgumentIndex) (place : Placeholder)
    (has_expansion : Bool) : Except String (ArgumentKind × Bool) :=
  match a.get_kind index place has_expansion with
  | .error e => .error (e ++ ": " ++ index.render)
  | .ok r => .ok r

end Sqlx.Pg

namespace Sqlx.MySql

open Sqlx

/-- Modelled from the spec: the same index-naming error wrapper as the
Postgres one, for the MySQL `get_kind`. -/
def resolveKind (a : MySqlArguments) (index : ArgumentIndex) (place : Placeholder)
    (has_expansion : Bool) : Except String (ArgumentKind × Bool) :=
  match a.get_kind index place has_expansion with
  | .error e => .error (e ++ ": " ++ index.render)
  | .ok r => .ok r

/-- Well-formedness of a `NullBitMap`: the byte vector holds exactly the
bytes the pushed bits need, and every bit at or beyond the pushed length
is still zero. -/
def NullBitMap.wf (m : NullBitMap) : Prop :=
  m.bytes.length = (m.length + 7) / 8 ∧ ∀ i, m.length ≤ i → m.testBit i = false

end Sqlx.MySql

namespace Sqlx.Pg

/-- A call against the `Arguments` surface of `PgArguments`. -/
inductive PgOp where
  | add (v : PgValue)
  | add_named (name : String) (v : PgValue)

/-- Run one `Arguments` call. -/
def PgArguments.applyOp (a : PgArguments) : PgOp → PgArguments
  | .add v => a.add v
  | .add_named name v => a.add_named name v

/-- Run a sequence of `Arguments` calls. -/
def PgArguments.applyOps (a : PgArguments) (ops : List PgOp) : PgArguments :=
  ops.foldl PgArguments.applyOp a

/-- The number of positional `add` calls in a call sequence. -/
def countAdds : List PgOp → Nat
  | [] => 0
  | .add _ :: rest => countAdds rest + 1
  | .add_named _ _ :: rest => countAdds rest

end Sqlx.Pg

namespace Sqlx.MySql

/-- A call against the `Arguments` surface of `MySqlArguments`. -/
inductive MyOp where
  | add (v : MySqlValue)
  | add_named (name : String) (v : MySqlValue)

/-- Run one `Arguments` call. -/
def MySqlArguments.applyOp (a : MySqlArguments) : MyOp → MySqlArguments
  | .add v => a.add v
  | .add_named name v => a.add_named name v

/-- Run a sequence of `Arguments` calls. -/
def MySqlArguments.applyOps (a : MySqlArguments) (ops : List MyOp) : MySqlArguments :=
  ops.foldl MySqlArguments.applyOp a

/-- The number of positional `add` calls in a call sequence. -/
def myCountAdds : List MyOp → Nat
  | [] => 0
  | .add _ :: rest => myCountAdds rest + 1
  | .add_named _ _ :: rest => myCountAdds rest

end Sqlx.MySql

namespace Sqlx

theorem mapGet_mapInsert_self {V : Type} (m : List (String × V)) (k : String) (v : V) :
    mapGet (mapInsert m k v) k = some v := by
  induction m with
  | nil => simp [mapInsert, mapGet]
  | cons hd tl ih =>
    obtain ⟨k', v'⟩ := hd
    by_cases h : k' = k
    · simp [mapInsert, mapGet, h]
    · simp [mapInsert, mapGet, h, ih]

theorem Pg.pgApplyOps_positional (a : Pg.PgArguments) (ops : List Pg.PgOp) :
    (a.applyOps ops).positional.length = a.positional.length + Pg.countAdds ops := by
  induction ops generalizing a with
  | nil => simp [Pg.PgArguments.applyOps, Pg.countAdds]
  | cons op rest ih =>
    cases op with
    | add v =>
      have := ih (a.add v)
      simp [Pg.PgArguments.applyOps, Pg.PgArguments.applyOp, List.foldl_cons] at this ⊢
      rw [this]
      simp [Pg.PgArguments.add, Pg.countAdds]
      omega
    | add_named name v =>
      have := ih (a.add_named name v)
      simp [Pg.PgArguments.applyOps, Pg.PgArguments.applyOp, List.foldl_cons] at this ⊢
      rw [this]
      simp [Pg.PgArguments.add_named, Pg.countAdds]

theorem MySql.myApplyOps_positional (a : MySql.MySqlArguments) (ops : List MySql.MyOp) :
    (a.applyOps ops).positional.length = a.positional.length + MySql.myCountAdds ops := by
  induction ops generalizing a with
  | nil => simp [MySql.MySqlArguments.applyOps, MySql.myCountAdds]
  | cons op rest ih =>
    cases op with
    | add v =>
      have := ih (a.add v)
      simp [MySql.MySqlArguments.applyOps, MySql.MySqlArguments.applyOp,
        List.foldl_cons] at this ⊢
      rw [this]
      simp [MySql.MySqlArguments.add, MySql.myCountAdds]
      omega
    | add_named name v =>
      have := ih (a.add_named name v)
      simp [MySql.MySqlArguments.applyOps, MySql.MySqlArguments.applyOp,
        List.foldl_cons] at this ⊢
      rw [this]
      simp [MySql.MySqlArguments.add_named, MySql.myCountAdds]

/-- C7: For every sequence of `add` and `add_named` calls on an argument
bag (Postgres or MySQL), `len()` returns exactly the number of positional
`add` calls, unaffected by `add_named`; `add_named` creates no positional
entry; and looking a name up after an `add_named` under that name returns
that call's value, so repeated `add_named` under one name is
last-write-wins. -/
theorem claim_c7_len_and_named :
    (∀ ops : List Pg.PgOp,
      (Pg.PgArguments.empty.applyOps ops).len = Pg.countAdds ops)
    ∧ (∀ (a : Pg.PgArguments) (name : String) (v : Pg.PgValue),
      (a.add_named name v).positional = a.positional
      ∧ mapGet (a.add_named name v).named name = some v)
    ∧ (∀ ops : List MySql.MyOp,
      (MySql.MySqlArguments.empty.applyOps ops).len = MySql.myCountAdds ops)
    ∧ (∀ (a : MySql.MySqlArguments) (name : String) (v : MySql.MySqlValue),
      (a.add_named name v).positional = a.positional
      ∧ mapGet (a.add_named name v).named name = some v) := by
  refine ⟨fun ops => ?_, fun a name v => ⟨rfl, ?_⟩, fun ops => ?_, fun a name v => ⟨rfl, ?_⟩⟩
  · rw [Pg.PgArguments.len, Pg.pgApplyOps_positional]
    simp [Pg.PgArguments.empty]
  · exact mapGet_mapInsert_self a.named name v
  · rw [MySql.MySqlArguments.len, MySql.myApplyOps_positional]
    simp [MySql.MySqlArguments.empty]
  · exact mapGet_mapInsert_self a.named name v

/-- C10: `PgArguments::format_placeholder` writes the dollar sign followed
by the current positional count only: after any call sequence with `n`
positional adds it renders exactly the string `$n`, regardless of the
named entries, and rendering does not depend on or change any other
state. -/
theorem claim_c10_format_placeholder :
    ∀ ops : List Pg.PgOp,
      (Pg.PgArguments.empty.applyOps ops).format_placeholder
        = "$" ++ toString (Pg.countAdds ops) := by
  intro ops
  rw [Pg.PgArguments.format_placeholder, Pg.pgApplyOps_positional]
  simp [Pg.PgArguments.empty]

end Sqlx

namespace Sqlx

/-- C8: Facade type reduction never silently coerces.  Every concrete
wire type either maps to its fixed reduced classification (the table
entries, e.g. Postgres `Int2` to `SmallInt` and `Bytea` to `Blob`, MySQL
`LongLong` to `BigInt` and all blob variants to `Blob`) or fails with an
error that names the unsupported type; concrete no-entry types such as
Postgres `Money` and MySQL `Geometry` produce exactly that error. -/
theorem claim_c8_type_reduction :
    (Any.AnyTypeInfo.try_from_pg ⟨.Int2⟩ = .ok ⟨.SmallInt⟩
      ∧ Any.AnyTypeInfo.try_from_pg ⟨.Bytea⟩ = .ok ⟨.Blob⟩
      ∧ Any.AnyTypeInfo.try_from_pg ⟨.Int4⟩ = .ok ⟨.Integer⟩
      ∧ Any.AnyTypeInfo.try_from_pg ⟨.Int8⟩ = .ok ⟨.BigInt⟩
      ∧ Any.AnyTypeInfo.try_from_pg ⟨.Varchar⟩ = .ok ⟨.Text⟩
      ∧ Any.AnyTypeInfo.try_from_pg ⟨.DeclareWithName "citext"⟩ = .ok ⟨.Text⟩)
    ∧ (Any.AnyTypeInfo.try_from_mysql ⟨.LongLong⟩ = .ok ⟨.BigInt⟩
      ∧ Any.AnyTypeInfo.try_from_mysql ⟨.Blob⟩ = .ok ⟨.Blob⟩
      ∧ Any.AnyTypeInfo.try_from_mysql ⟨.TinyBlob⟩ = .ok ⟨.Blob⟩
      ∧ Any.AnyTypeInfo.try_from_mysql ⟨.MediumBlob⟩ = .ok ⟨.Blob⟩
      ∧ Any.AnyTypeInfo.try_from_mysql ⟨.LongBlob⟩ = .ok ⟨.Blob⟩
      ∧ Any.AnyTypeInfo.try_from_mysql ⟨.Short⟩ = .ok ⟨.SmallInt⟩)
    ∧ (∀ t : Pg.PgTypeInfo,
      Any.AnyTypeInfo.try_from_pg t
          = .error ("Any driver does not support the Postgres type "
            ++ Pg.PgType.render t.ty)
        ∨ ∃ k, Any.AnyTypeInfo.try_from_pg t = .ok k)
    ∧ (∀ t : MySql.MySqlTypeInfo,
      Any.AnyTypeInfo.try_from_mysql t
          = .error ("Any driver does not support MySql type "
            ++ MySql.columnTypeRender t.ty)
        ∨ ∃ k, Any.AnyTypeInfo.try_from_mysql t = .ok k)
    ∧ (Any.AnyTypeInfo.try_from_pg ⟨.Money⟩
        = .error "Any driver does not support the Postgres type Money")
    ∧ (Any.AnyTypeInfo.try_from_pg ⟨.DeclareWithName "ltree"⟩
        = .error "Any driver does not support the Postgres type DeclareWithName ltree")
    ∧ (Any.AnyTypeInfo.try_from_mysql ⟨.Geometry⟩
        = .error "Any driver does not support MySql type Geometry") := by
  refine ⟨⟨rfl, rfl, rfl, rfl, rfl, rfl⟩, ⟨rfl, rfl, rfl, rfl, rfl, rfl⟩,
    fun t => ?_, fun t => ?_, rfl, rfl, rfl⟩
  · obtain ⟨ty⟩ := t
    cases ty <;> simp [Any.AnyTypeInfo.try_from_pg]
    case DeclareWithName n =>
      by_cases h : n = "citext" <;> simp [h]
  · obtain ⟨ty⟩ := t
    cases ty <;> simp [Any.AnyTypeInfo.try_from_mysql]

/-- C3: resolving a placeholder occurrence's argument kind: an absent
index fails with the "unknown argument" error naming the index (the
index-naming wrapper is modelled from the spec, since the expander that
attaches it lives outside the provided sources); a present index with a
requested expansion but no definite length fails with the "expected
vector for argument" error naming the index; a present index with
expansion and reported length `n` yields `Vector n` and sets the
expansion-tracking flag; otherwise the kind is `Scalar` and the flag is
passed through unchanged.  Both backends resolve identically. -/
theorem claim_c3_get_kind_resolution :
    (∀ (a : Pg.PgArguments) (index : ArgumentIndex) (place : Placeholder)
        (he : Bool),
      (a.get index = none →
        Pg.resolveKind a index place he
          = .error ("unknown argument: " ++ index.render))
      ∧ (∀ arg, a.get index = some arg → place.kleene.isSome →
          arg.vectorLen = none →
        Pg.resolveKind a index place he
          = .error ("expected vector for argument: " ++ index.render))
      ∧ (∀ arg n, a.get index = some arg → place.kleene.isSome →
          arg.vectorLen = some n →
        Pg.resolveKind a index place he = .ok (ArgumentKind.Vector n, true))
      ∧ (∀ arg, a.get index = some arg → place.kleene = none →
        Pg.resolveKind a index place he = .ok (ArgumentKind.Scalar, he)))
    ∧ (∀ (a : MySql.MySqlArguments) (index : ArgumentIndex) (place : Placeholder)
        (he : Bool),
      (a.get index = none →
        MySql.resolveKind a index place he
          = .error ("unknown argument: " ++ index.render))
      ∧ (∀ arg, a.get index = some arg → place.kleene.isSome →
          arg.vectorLen = none →
        MySql.resolveKind a index place he
          = .error ("expected vector for argument: " ++ index.render))
      ∧ (∀ arg n, a.get index = some arg → place.kleene.isSome →
          arg.vectorLen = some n →
        MySql.resolveKind a index place he = .ok (ArgumentKind.Vector n, true))
      ∧ (∀ arg, a.get index = some arg → place.kleene = none →
        MySql.resolveKind a index place he = .ok (ArgumentKind.Scalar, he))) := by
  constructor
  · intro a index place he
    refine ⟨fun h => ?_, fun arg h hk hv => ?_, fun arg n h hk hv => ?_,
      fun arg h hk => ?_⟩
    · simp [Pg.resolveKind, Pg.PgArguments.get_kind, h]
    · obtain ⟨u, hu⟩ := Option.isSome_iff_exists.mp hk
      simp [Pg.resolveKind, Pg.PgArguments.get_kind, h, hu, hv]
    · obtain ⟨u, hu⟩ := Option.isSome_iff_exists.mp hk
      simp [Pg.resolveKind, Pg.PgArguments.get_kind, h, hu, hv]
    · simp [Pg.resolveKind, Pg.PgArguments.get_kind, h, hk]
  · intro a index place he
    refine ⟨fun h => ?_, fun arg h hk hv => ?_, fun arg n h hk hv => ?_,
      fun arg h hk => ?_⟩
    · simp [MySql.resolveKind, MySql.MySqlArguments.get_kind, h]
    · obtain ⟨u, hu⟩ := Option.isSome_iff_exists.mp hk
      simp [MySql.resolveKind, MySql.MySqlArguments.get_kind, h, hu, hv]
    · obtain ⟨u, hu⟩ := Option.isSome_iff_exists.mp hk
      simp [MySql.resolveKind, MySql.MySqlArguments.get_kind, h, hu, hv]
    · simp [MySql.resolveKind, MySql.MySqlArguments.get_kind, h, hk]

end Sqlx

namespace Sqlx.Pg

theorem reset_snapshot_self (b : PgArgumentBuffer) :
    b.reset_to_snapshot b.snapshot = b := by
  cases b
  simp [PgArgumentBuffer.reset_to_snapshot, PgArgumentBuffer.snapshot]

theorem reset_snapshot_append (b : PgArgumentBuffer) (extra : List Nat)
    (ps : List Patch) (hs : List (Nat × HoleKind)) :
    PgArgumentBuffer.reset_to_snapshot
      { buffer := b.buffer ++ extra, count := b.count,
        patches := b.patches ++ ps, type_holes := b.type_holes ++ hs }
      b.snapshot = b := by
  cases b
  simp [PgArgumentBuffer.reset_to_snapshot, PgArgumentBuffer.snapshot,
    List.take_left]

/-- `encode` never touches the argument count. -/
theorem encode_fst_count (b : PgArgumentBuffer) (v : PgValue) :
    (b.encode v).1.count = b.count := by
  unfold PgArgumentBuffer.encode
  split
  · rfl
  · simp only [PgArgumentBuffer.applyEffect]
    split
    · rfl
    · split
      · rfl
      · rfl
    · rfl

/-- `encode_ref` and `encode` share one body. -/
theorem encode_ref_eq_encode (b : PgArgumentBuffer) (v : PgValue) :
    b.encode_ref v = b.encode v := rfl

/-- `add_ref` and `add` share one discipline. -/
theorem add_ref_eq_add (s : PgArgumentsInner) (v : PgValue) :
    s.add_ref v = s.add v := rfl

/-- A failed `encode` of an appending value rolls back to exactly the
pre-call buffer under `reset_to_snapshot`. -/
theorem encode_failed_rollback (b : PgArgumentBuffer) (v : PgValue)
    (happ : v.Appending) (e : String) (hfail : (b.encode v).2 = some e) :
    (b.encode v).1.reset_to_snapshot b.snapshot = b := by
  unfold PgArgumentBuffer.encode at hfail ⊢
  by_cases hsize : v.sizeHint ≤ I32_MAX
  · obtain ⟨extra, hex⟩ := happ { b with buffer := b.buffer ++ [0, 0, 0, 0] }
    simp only [value_size_int4_checked, hsize, if_pos] at hfail ⊢
    simp only [PgArgumentBuffer.applyEffect] at hfail ⊢
    split
    next e' heq =>
      simp only [hex]
      have hb : b.buffer ++ [0, 0, 0, 0] ++ extra
          = b.buffer ++ ([0, 0, 0, 0] ++ extra) := by
        simp
      rw [hb]
      exact reset_snapshot_append b _ _ _
    next heq =>
      rw [heq] at hfail
      simp only [] at hfail
      split
      next e' heq2 =>
        simp only [hex]
        have hb : b.buffer ++ [0, 0, 0, 0] ++ extra
            = b.buffer ++ ([0, 0, 0, 0] ++ extra) := by
          simp
        rw [hb]
        exact reset_snapshot_append b _ _ _
      next len heq2 =>
        rw [heq2] at hfail
        simp at hfail
    next heq =>
      rw [heq] at hfail
      simp at hfail
  · simp only [value_size_int4_checked, hsize, if_neg] at hfail ⊢
    exact reset_snapshot_self b

end Sqlx.Pg

namespace Sqlx.Pg

/-- On a failed `add` of an appending value, the whole `PgArgumentsInner`
state is exactly its pre-call value. -/
theorem add_failed_state (s : PgArgumentsInner) (v : PgValue) (e : String)
    (happ : v.Appending) (hfail : (s.add v).2 = some e) :
    (s.add v).1 = s := by
  unfold PgArgumentsInner.add at hfail ⊢
  rcases hEnc : s.buffer.encode v with ⟨bS, err⟩
  rw [hEnc] at hfail
  cases err with
  | none => simp at hfail
  | some e' =>
    have h2 : (s.buffer.encode v).2 = some e' := by rw [hEnc]
    have h3 := encode_failed_rollback s.buffer v happ e' h2
    rw [hEnc] at h3
    simp only [Prod.fst] at h3
    have h4 : (⟨s.types, bS.reset_to_snapshot s.buffer.snapshot⟩ : PgArgumentsInner) = s := by
      rw [h3]
    exact h4

/-- On a failed `add`, the recorded types and the argument count are
exactly their pre-call values (no appending assumption needed: the
rollback restores the count and the types vector is only pushed on
success). -/
theorem add_failed_counts (s : PgArgumentsInner) (v : PgValue) (e : String)
    (hfail : (s.add v).2 = some e) :
    (s.add v).1.types = s.types ∧ (s.add v).1.buffer.count = s.buffer.count := by
  unfold PgArgumentsInner.add at hfail ⊢
  rcases hEnc : s.buffer.encode v with ⟨bS, err⟩
  rw [hEnc] at hfail
  cases err with
  | none => simp at hfail
  | some e' =>
    simp [PgArgumentBuffer.reset_to_snapshot, PgArgumentBuffer.snapshot]

/-- On a successful `add`, exactly one type is recorded and the count is
incremented by one. -/
theorem add_success_counts (s : PgArgumentsInner) (v : PgValue)
    (hok : (s.add v).2 = none) :
    (s.add v).1.types.length = s.types.length + 1
    ∧ (s.add v).1.buffer.count = s.buffer.count + 1 := by
  unfold PgArgumentsInner.add at hok ⊢
  rcases hEnc : s.buffer.encode v with ⟨bS, err⟩
  rw [hEnc] at hok
  cases err with
  | none =>
    have hc : bS.count = s.buffer.count := by
      have := encode_fst_count s.buffer v
      rw [hEnc] at this
      exact this
    simp [hc]
  | some e' => simp at hok

/-- A call against `PgArgumentsInner` (either entry point). -/
inductive PgCall where
  | add (v : PgValue)
  | add_ref (v : PgValue)

/-- Run one call, reporting whether it succeeded. -/
def PgArgumentsInner.applyCall (s : PgArgumentsInner) : PgCall → PgArgumentsInner × Bool
  | .add v => ((s.add v).1, (s.add v).2.isNone)
  | .add_ref v => ((s.add_ref v).1, (s.add_ref v).2.isNone)

/-- Run a sequence of calls, counting the successful ones. -/
def runCalls (s : PgArgumentsInner) : List PgCall → PgArgumentsInner × Nat
  | [] => (s, 0)
  | c :: rest =>
    let r := s.applyCall c
    let rr := runCalls r.1 rest
    (rr.1, (if r.2 then 1 else 0) + rr.2)

theorem runCalls_counts (calls : List PgCall) (s : PgArgumentsInner) :
    (runCalls s calls).1.types.length = s.types.length + (runCalls s calls).2
    ∧ (runCalls s calls).1.buffer.count = s.buffer.count + (runCalls s calls).2 := by
  induction calls generalizing s with
  | nil => simp [runCalls]
  | cons c rest ih =>
    have hcall : ∀ v : PgValue,
        ((s.add v).1.types.length = s.types.length + (if (s.add v).2.isNone then 1 else 0))
        ∧ ((s.add v).1.buffer.count = s.buffer.count + (if (s.add v).2.isNone then 1 else 0)) := by
      intro v
      rcases h2 : (s.add v).2 with _ | e
      · have := add_success_counts s v h2
        simp [this]
      · have := add_failed_counts s v e h2
        simp [this]
    cases c with
    | add v =>
      have h1 := hcall v
      have h2 := ih ((s.add v).1)
      simp only [runCalls, PgArgumentsInner.applyCall]
      constructor
      · rw [h2.1, h1.1]
        by_cases hb : (s.add v).2.isNone <;> simp [hb] <;> omega
      · rw [h2.2, h1.2]
        by_cases hb : (s.add v).2.isNone <;> simp [hb] <;> omega
    | add_ref v =>
      have h1 := hcall v
      have h2 := ih ((s.add v).1)
      simp only [runCalls, PgArgumentsInner.applyCall, add_ref_eq_add]
      constructor
      · rw [h2.1, h1.1]
        by_cases hb : (s.add v).2.isNone <;> simp [hb] <;> omega
      · rw [h2.2, h1.2]
        by_cases hb : (s.add v).2.isNone <;> simp [hb] <;> omega

end Sqlx.Pg

namespace Sqlx.MySql

/-- On a failed `add` of an appending value, the whole
`MySqlArgumentsPositional` state is exactly its pre-call value: the bytes
are truncated back and neither a type nor a null-bitmap bit is pushed. -/
theorem my_add_failed_state (s : MySqlArgumentsPositional) (v : MySqlValue)
    (e : String) (happ : v.Appending) (hfail : (s.add v).2 = some e) :
    (s.add v).1 = s := by
  unfold MySqlArgumentsPositional.add at hfail ⊢
  obtain ⟨extra, hex⟩ := happ s.values
  rcases hres : (v.encodeFn s.values).result with e' | nl
  · simp only [hres, hex] at hfail ⊢
    rw [List.take_left]
  · simp only [hres] at hfail
    simp at hfail

end Sqlx.MySql

namespace Sqlx.Pg

/-- A sample value that encodes two bytes successfully. -/
def sampleOk : PgValue :=
  { sizeHint := 2, produces := none, typeInfo := ⟨.Int2⟩, vectorLen := none,
    encodeFn := fun b =>
      { bytes := b.buffer ++ [0, 5], newPatches := [], newHoles := [],
        result := .ok .No } }

/-- A sample value whose encode step appends one byte and then fails. -/
def sampleFail : PgValue :=
  { sizeHint := 1, produces := none, typeInfo := ⟨.Int2⟩, vectorLen := none,
    encodeFn := fun b =>
      { bytes := b.buffer ++ [7], newPatches := [], newHoles := [],
        result := .error "boom" } }

/-- A sample NULL value (writes nothing, reports `IsNull::Yes`). -/
def sampleNull : PgValue :=
  { sizeHint := 4, produces := none, typeInfo := ⟨.Int4⟩, vectorLen := none,
    encodeFn := fun b =>
      { bytes := b.buffer, newPatches := [], newHoles := [],
        result := .ok .Yes } }

/-- A sample sequence-like value reporting three elements. -/
def sampleVec : PgValue :=
  { sizeHint := 2, produces := none, typeInfo := ⟨.Int2⟩, vectorLen := some 3,
    encodeFn := fun b =>
      { bytes := b.buffer ++ [0, 5], newPatches := [], newHoles := [],
        result := .ok .No } }

/-- A sample value whose declared size hint exceeds `i32::MAX`. -/
def sampleBigHint : PgValue :=
  { sizeHint := 2147483648, produces := none, typeInfo := ⟨.Bytea⟩,
    vectorLen := none,
    encodeFn := fun b =>
      { bytes := b.buffer, newPatches := [], newHoles := [],
        result := .ok .No } }

end Sqlx.Pg

namespace Sqlx.MySql

/-- A sample MySQL value that encodes two bytes successfully. -/
def mySampleOk : MySqlValue :=
  { produces := none, typeInfo := ⟨.Long⟩, vectorLen := none,
    encodeFn := fun bs => { bytes := bs ++ [1, 2], result := .ok .No } }

/-- A sample MySQL value whose encode step appends one byte and fails. -/
def mySampleFail : MySqlValue :=
  { produces := none, typeInfo := ⟨.Long⟩, vectorLen := none,
    encodeFn := fun bs => { bytes := bs ++ [9], result := .error "boom" } }

/-- A sample sequence-like MySQL value reporting three elements. -/
def mySampleVec : MySqlValue :=
  { produces := none, typeInfo := ⟨.Long⟩, vectorLen := some 3,
    encodeFn := fun bs => { bytes := bs, result := .ok .No } }

end Sqlx.MySql

namespace Sqlx

/-- C1: a failed encode leaves the state untouched.  For the Postgres
(server-typed-parameter) buffer, after a failed `add` of an appending
value the buffer length, value count, patch count and type-hole count all
equal their pre-call values, from any prior state.  For the MySQL
(separate-null-marker) state, the encoded bytes are truncated back and no
type entry or null-bitmap bit is appended. -/
theorem claim_c1_failed_encode_rolls_back :
    (∀ (s : Pg.PgArgumentsInner) (v : Pg.PgValue) (e : String),
      v.Appending → (s.add v).2 = some e →
        (s.add v).1.buffer.buffer.length = s.buffer.buffer.length
        ∧ (s.add v).1.buffer.count = s.buffer.count
        ∧ (s.add v).1.buffer.patches.length = s.buffer.patches.length
        ∧ (s.add v).1.buffer.type_holes.length = s.buffer.type_holes.length)
    ∧ (∀ (s : MySql.MySqlArgumentsPositional) (v : MySql.MySqlValue) (e : String),
      v.Appending → (s.add v).2 = some e →
        (s.add v).1.values = s.values
        ∧ (s.add v).1.types = s.types
        ∧ (s.add v).1.null_bitmap = s.null_bitmap) := by
  constructor
  · intro s v e happ hfail
    have h := Pg.add_failed_state s v e happ hfail
    rw [h]
    exact ⟨rfl, rfl, rfl, rfl⟩
  · intro s v e happ hfail
    have h := MySql.my_add_failed_state s v e happ hfail
    rw [h]
    exact ⟨rfl, rfl, rfl⟩

/-- C1 witness: a concrete failing value on a concrete non-empty state,
for both backends. -/
theorem claim_c1_witness :
    (((Pg.PgArgumentsInner.empty.add Pg.sampleOk).1.add Pg.sampleFail).1.buffer.buffer.length
        = ((Pg.PgArgumentsInner.empty.add Pg.sampleOk).1).buffer.buffer.length
      ∧ ((Pg.PgArgumentsInner.empty.add Pg.sampleOk).1.add Pg.sampleFail).1.buffer.count
        = ((Pg.PgArgumentsInner.empty.add Pg.sampleOk).1).buffer.count
      ∧ ((Pg.PgArgumentsInner.empty.add Pg.sampleOk).1.add Pg.sampleFail).1.buffer.patches.length
        = ((Pg.PgArgumentsInner.empty.add Pg.sampleOk).1).buffer.patches.length
      ∧ ((Pg.PgArgumentsInner.empty.add Pg.sampleOk).1.add Pg.sampleFail).1.buffer.type_holes.length
        = ((Pg.PgArgumentsInner.empty.add Pg.sampleOk).1).buffer.type_holes.length)
    ∧ (((MySql.MySqlArgumentsPositional.empty.add MySql.mySampleOk).1.add MySql.mySampleFail).1.values
        = ((MySql.MySqlArgumentsPositional.empty.add MySql.mySampleOk).1).values
      ∧ ((MySql.MySqlArgumentsPositional.empty.add MySql.mySampleOk).1.add MySql.mySampleFail).1.types
        = ((MySql.MySqlArgumentsPositional.empty.add MySql.mySampleOk).1).types
      ∧ ((MySql.MySqlArgumentsPositional.empty.add MySql.mySampleOk).1.add MySql.mySampleFail).1.null_bitmap
        = ((MySql.MySqlArgumentsPositional.empty.add MySql.mySampleOk).1).null_bitmap) :=
  ⟨claim_c1_failed_encode_rolls_back.1 _ Pg.sampleFail "boom"
      (fun b => ⟨[7], rfl⟩) rfl,
    claim_c1_failed_encode_rolls_back.2 _ MySql.mySampleFail "boom"
      (fun bs => ⟨[9], rfl⟩) rfl⟩

/-- C9: the invariant that the number of recorded parameter types equals
the buffer's value count, and both equal the number of successful
`add`/`add_ref` calls: it holds in the default state, every successful
`add`/`add_ref` grows both by one, every failed call leaves both
untouched, and over any call sequence both equal the success count. -/
theorem claim_c9_types_count_invariant :
    (Pg.PgArgumentsInner.empty.types.length = 0
      ∧ Pg.PgArgumentsInner.empty.buffer.count = 0)
    ∧ (∀ (s : Pg.PgArgumentsInner) (v : Pg.PgValue),
      ((s.add v).2 = none →
        (s.add v).1.types.length = s.types.length + 1
        ∧ (s.add v).1.buffer.count = s.buffer.count + 1)
      ∧ (∀ e, (s.add v).2 = some e →
        (s.add v).1.types = s.types
        ∧ (s.add v).1.buffer.count = s.buffer.count))
    ∧ (∀ (s : Pg.PgArgumentsInner) (v : Pg.PgValue),
      ((s.add_ref v).2 = none →
        (s.add_ref v).1.types.length = s.types.length + 1
        ∧ (s.add_ref v).1.buffer.count = s.buffer.count + 1)
      ∧ (∀ e, (s.add_ref v).2 = some e →
        (s.add_ref v).1.types = s.types
        ∧ (s.add_ref v).1.buffer.count = s.buffer.count))
    ∧ (∀ calls : List Pg.PgCall,
      (Pg.runCalls Pg.PgArgumentsInner.empty calls).1.types.length
        = (Pg.runCalls Pg.PgArgumentsInner.empty calls).2
      ∧ (Pg.runCalls Pg.PgArgumentsInner.empty calls).1.buffer.count
        = (Pg.runCalls Pg.PgArgumentsInner.empty calls).2) := by
  refine ⟨⟨rfl, rfl⟩, fun s v => ⟨Pg.add_success_counts s v, fun e => Pg.add_failed_counts s v e⟩,
    fun s v => ?_, fun calls => ?_⟩
  · rw [Pg.add_ref_eq_add]
    exact ⟨Pg.add_success_counts s v, fun e => Pg.add_failed_counts s v e⟩
  · have h := Pg.runCalls_counts calls Pg.PgArgumentsInner.empty
    simpa [Pg.PgArgumentsInner.empty, Pg.PgArgumentBuffer.empty] using h

/-- C9 witness: a concrete mixed call sequence with one success, one
failure, and one `add_ref` success. -/
theorem claim_c9_witness :
    ((Pg.PgArgumentsInner.empty.add Pg.sampleOk).2 = none
      ∧ (Pg.PgArgumentsInner.empty.add Pg.sampleOk).1.types.length
          = Pg.PgArgumentsInner.empty.types.length + 1
      ∧ (Pg.PgArgumentsInner.empty.add Pg.sampleOk).1.buffer.count
          = Pg.PgArgumentsInner.empty.buffer.count + 1)
    ∧ ((Pg.PgArgumentsInner.empty.add Pg.sampleFail).2 = some "boom"
      ∧ (Pg.PgArgumentsInner.empty.add Pg.sampleFail).1.types
          = Pg.PgArgumentsInner.empty.types
      ∧ (Pg.PgArgumentsInner.empty.add Pg.sampleFail).1.buffer.count
          = Pg.PgArgumentsInner.empty.buffer.count)
    ∧ ((Pg.PgArgumentsInner.empty.add_ref Pg.sampleNull).2 = none
      ∧ (Pg.PgArgumentsInner.empty.add_ref Pg.sampleNull).1.types.length
          = Pg.PgArgumentsInner.empty.types.length + 1
      ∧ (Pg.PgArgumentsInner.empty.add_ref Pg.sampleNull).1.buffer.count
          = Pg.PgArgumentsInner.empty.buffer.count + 1) := by
  refine ⟨⟨rfl, ?_⟩, ⟨rfl, ?_⟩, ⟨rfl, ?_⟩⟩
  · exact ((claim_c9_types_count_invariant.2.1 Pg.PgArgumentsInner.empty Pg.sampleOk).1) rfl
  · exact ((claim_c9_types_count_invariant.2.1 Pg.PgArgumentsInner.empty Pg.sampleFail).2) "boom" rfl
  · exact ((claim_c9_types_count_invariant.2.2.1 Pg.PgArgumentsInner.empty Pg.sampleNull).1) rfl

end Sqlx

namespace Sqlx.Pg

theorem i32ToBeBytes_length (n : Int) : (i32ToBeBytes n).length = 4 := rfl

/-- Overwriting a same-length slice between two append segments. -/
theorem writeBytesAt_append (l₁ mid extra src : List Nat)
    (h : mid.length = src.length) :
    writeBytesAt ((l₁ ++ mid) ++ extra) l₁.length src = l₁ ++ src ++ extra := by
  unfold writeBytesAt
  have h2 : l₁.length + src.length = (l₁ ++ mid).length := by
    simp [h]
  have ht : ((l₁ ++ mid) ++ extra).take l₁.length = l₁ := by
    rw [List.append_assoc, List.take_left]
  have hd : ((l₁ ++ mid) ++ extra).drop (l₁.length + src.length) = extra := by
    rw [h2, List.drop_left]
  rw [ht, hd]

/-- The realized length computed after an appending encode step. -/
theorem realized_length (pre extra : List Nat) :
    ((pre ++ [0, 0, 0, 0]) ++ extra).length - pre.length - 4 = extra.length := by
  simp

/-- Characterization of a successful non-NULL `encode` of an appending
value: the buffer grows by the 4-byte big-endian length of the appended
bytes followed by those bytes, patches and holes grow by the step's
additions, and the count is unchanged. -/
theorem encode_ok_not_null (b : PgArgumentBuffer) (v : PgValue) (extra : List Nat)
    (hhint : v.sizeHint ≤ I32_MAX)
    (hbytes : (v.encodeFn { b with buffer := b.buffer ++ [0, 0, 0, 0] }).bytes
      = (b.buffer ++ [0, 0, 0, 0]) ++ extra)
    (hres : (v.encodeFn { b with buffer := b.buffer ++ [0, 0, 0, 0] }).result
      = .ok .No)
    (hfit : extra.length ≤ I32_MAX) :
    b.encode v =
      ({ buffer := b.buffer ++ i32ToBeBytes (Int.ofNat extra.length) ++ extra
         count := b.count
         patches := b.patches
           ++ (v.encodeFn { b with buffer := b.buffer ++ [0, 0, 0, 0] }).newPatches
         type_holes := b.type_holes
           ++ (v.encodeFn { b with buffer := b.buffer ++ [0, 0, 0, 0] }).newHoles },
        none) := by
  unfold PgArgumentBuffer.encode
  simp only [value_size_int4_checked, hhint, if_pos, PgArgumentBuffer.applyEffect,
    hbytes, hres, realized_length, hfit]
  rw [writeBytesAt_append b.buffer [0, 0, 0, 0] extra
    (i32ToBeBytes (Int.ofNat extra.length)) rfl]

/-- Characterization of a successful NULL `encode`: when the encode step
writes nothing (the documented contract for a NULL result), the buffer
grows by the -1 sentinel only. -/
theorem encode_ok_null (b : PgArgumentBuffer) (v : PgValue)
    (hhint : v.sizeHint ≤ I32_MAX)
    (hbytes : (v.encodeFn { b with buffer := b.buffer ++ [0, 0, 0, 0] }).bytes
      = b.buffer ++ [0, 0, 0, 0])
    (hres : (v.encodeFn { b with buffer := b.buffer ++ [0, 0, 0, 0] }).result
      = .ok .Yes) :
    b.encode v =
      ({ buffer := b.buffer ++ i32ToBeBytes (-1)
         count := b.count
         patches := b.patches
           ++ (v.encodeFn { b with buffer := b.buffer ++ [0, 0, 0, 0] }).newPatches
         type_holes := b.type_holes
           ++ (v.encodeFn { b with buffer := b.buffer ++ [0, 0, 0, 0] }).newHoles },
        none) := by
  unfold PgArgumentBuffer.encode
  simp only [value_size_int4_checked, hhint, if_pos, PgArgumentBuffer.applyEffect,
    hbytes, hres]
  have h := writeBytesAt_append b.buffer [0, 0, 0, 0] [] (i32ToBeBytes (-1)) rfl
  simp at h
  rw [h]

end Sqlx.Pg

namespace Sqlx

/-- C2: every value successfully encoded into the Postgres wire buffer
grows it by a 4-byte big-endian signed length followed by the value's
encoded bytes, the prefixed length being exactly the count of the bytes
that follow it; a NULL value contributes the -1 sentinel and zero bytes.
`encode_ref` behaves identically to `encode`. -/
theorem claim_c2_length_prefixed_encoding :
    (∀ (b : Pg.PgArgumentBuffer) (v : Pg.PgValue) (extra : List Nat),
      v.sizeHint ≤ I32_MAX →
      (v.encodeFn { b with buffer := b.buffer ++ [0, 0, 0, 0] }).bytes
        = (b.buffer ++ [0, 0, 0, 0]) ++ extra →
      (v.encodeFn { b with buffer := b.buffer ++ [0, 0, 0, 0] }).result
        = .ok .No →
      extra.length ≤ I32_MAX →
        (b.encode v).2 = none
        ∧ (b.encode v).1.buffer
            = b.buffer ++ i32ToBeBytes (Int.ofNat extra.length) ++ extra
        ∧ (i32ToBeBytes (Int.ofNat extra.length)).length = 4)
    ∧ (∀ (b : Pg.PgArgumentBuffer) (v : Pg.PgValue),
      v.sizeHint ≤ I32_MAX →
      (v.encodeFn { b with buffer := b.buffer ++ [0, 0, 0, 0] }).bytes
        = b.buffer ++ [0, 0, 0, 0] →
      (v.encodeFn { b with buffer := b.buffer ++ [0, 0, 0, 0] }).result
        = .ok .Yes →
        (b.encode v).2 = none
        ∧ (b.encode v).1.buffer = b.buffer ++ i32ToBeBytes (-1))
    ∧ (∀ (b : Pg.PgArgumentBuffer) (v : Pg.PgValue),
      b.encode_ref v = b.encode v) := by
  refine ⟨fun b v extra hhint hbytes hres hfit => ?_, fun b v hhint hbytes hres => ?_,
    fun b v => Pg.encode_ref_eq_encode b v⟩
  · rw [Pg.encode_ok_not_null b v extra hhint hbytes hres hfit]
    exact ⟨rfl, rfl, rfl⟩
  · rw [Pg.encode_ok_null b v hhint hbytes hres]
    exact ⟨rfl, rfl⟩

/-- C2 witness: a concrete two-byte value and a concrete NULL on the
empty buffer; the prefix reads 2 and -1 respectively. -/
theorem claim_c2_witness :
    ((Pg.PgArgumentBuffer.empty.encode Pg.sampleOk).2 = none
      ∧ (Pg.PgArgumentBuffer.empty.encode Pg.sampleOk).1.buffer
          = [0, 0, 0, 2, 0, 5])
    ∧ ((Pg.PgArgumentBuffer.empty.encode Pg.sampleNull).2 = none
      ∧ (Pg.PgArgumentBuffer.empty.encode Pg.sampleNull).1.buffer
          = [255, 255, 255, 255]) := by
  have h1 := (claim_c2_length_prefixed_encoding.1 Pg.PgArgumentBuffer.empty
    Pg.sampleOk [0, 5] (by decide) rfl rfl (by decide))
  have h2 := (claim_c2_length_prefixed_encoding.2.1 Pg.PgArgumentBuffer.empty
    Pg.sampleNull (by decide) rfl rfl)
  exact ⟨⟨h1.1, by rw [h1.2.1]; rfl⟩, ⟨h2.1, by rw [h2.2]; rfl⟩⟩

end Sqlx

namespace Sqlx.Pg

/-- A sample value whose encode step appends more than `i32::MAX` bytes. -/
def sampleHuge : PgValue :=
  { sizeHint := 0, produces := none, typeInfo := ⟨.Bytea⟩, vectorLen := none,
    encodeFn := fun b =>
      { bytes := b.buffer ++ List.replicate 2147483648 0, newPatches := [],
        newHoles := [], result := .ok .No } }

end Sqlx.Pg

namespace Sqlx

/-- C5: the two `i32` overflow checks around a Postgres encode.  A size
hint beyond `i32::MAX` fails up front with the overflow message and no
mutation; a realized non-NULL size beyond `i32::MAX` fails with the
overflow message, leaving the 4-byte slot zeroed (the prefix is not
written); and whenever a non-NULL encode succeeds, the realized size fits
in a signed 32-bit integer. -/
theorem claim_c5_overflow_checks :
    (∀ (b : Pg.PgArgumentBuffer) (v : Pg.PgValue),
      I32_MAX < v.sizeHint →
        b.encode v = (b, some ("value size would overflow in the binary protocol encoding: "
          ++ toString v.sizeHint ++ " > " ++ toString I32_MAX)))
    ∧ (∀ (b : Pg.PgArgumentBuffer) (v : Pg.PgValue) (extra : List Nat),
      v.sizeHint ≤ I32_MAX →
      (v.encodeFn { b with buffer := b.buffer ++ [0, 0, 0, 0] }).bytes
        = (b.buffer ++ [0, 0, 0, 0]) ++ extra →
      (v.encodeFn { b with buffer := b.buffer ++ [0, 0, 0, 0] }).result
        = .ok .No →
      I32_MAX < extra.length →
        (b.encode v).2 = some ("value size would overflow in the binary protocol encoding: "
          ++ toString extra.length ++ " > " ++ toString I32_MAX)
        ∧ (b.encode v).1.buffer = (b.buffer ++ [0, 0, 0, 0]) ++ extra)
    ∧ (∀ (b : Pg.PgArgumentBuffer) (v : Pg.PgValue) (extra : List Nat),
      v.sizeHint ≤ I32_MAX →
      (v.encodeFn { b with buffer := b.buffer ++ [0, 0, 0, 0] }).bytes
        = (b.buffer ++ [0, 0, 0, 0]) ++ extra →
      (v.encodeFn { b with buffer := b.buffer ++ [0, 0, 0, 0] }).result
        = .ok .No →
      (b.encode v).2 = none →
        extra.length ≤ I32_MAX) := by
  refine ⟨fun b v hbig => ?_, fun b v extra hhint hbytes hres hbig => ?_,
    fun b v extra hhint hbytes hres hok => ?_⟩
  · have hn : ¬ (v.sizeHint ≤ I32_MAX) := by omega
    unfold Pg.PgArgumentBuffer.encode
    simp [value_size_int4_checked, hn]
  · have hn : ¬ (extra.length ≤ I32_MAX) := by omega
    unfold Pg.PgArgumentBuffer.encode
    simp only [value_size_int4_checked, hhint, if_pos, Pg.PgArgumentBuffer.applyEffect,
      hbytes, hres, Pg.realized_length, hn, if_neg]
    exact ⟨by simp, rfl⟩
  · by_cases hfit : extra.length ≤ I32_MAX
    · exact hfit
    · exfalso
      have hn : ¬ (extra.length ≤ I32_MAX) := hfit
      unfold Pg.PgArgumentBuffer.encode at hok
      simp only [value_size_int4_checked, hhint, if_pos, Pg.PgArgumentBuffer.applyEffect,
        hbytes, hres, Pg.realized_length, hn, if_neg] at hok
      simp at hok

/-- C5 witness: a hint of 2^31 fails up front; an encode step that
appends 2^31 bytes fails after the fact, leaving the zeroed slot. -/
theorem claim_c5_witness :
    (Pg.PgArgumentBuffer.empty.encode Pg.sampleBigHint
      = (Pg.PgArgumentBuffer.empty,
        some ("value size would overflow in the binary protocol encoding: "
          ++ toString (2147483648 : Nat) ++ " > " ++ toString I32_MAX)))
    ∧ ((Pg.PgArgumentBuffer.empty.encode Pg.sampleHuge).2
      = some ("value size would overflow in the binary protocol encoding: "
          ++ toString (List.replicate 2147483648 (0 : Nat)).length
          ++ " > " ++ toString I32_MAX)) := by
  constructor
  · exact claim_c5_overflow_checks.1 Pg.PgArgumentBuffer.empty Pg.sampleBigHint
      (by decide)
  · exact (claim_c5_overflow_checks.2.1 Pg.PgArgumentBuffer.empty Pg.sampleHuge
      (List.replicate 2147483648 0) (by decide) rfl rfl
      (by rw [List.length_replicate]; decide)).1

end Sqlx

namespace Sqlx

/-- C3 witness: concrete resolutions — a missing name, a vector expansion,
a scalar, and an expansion requested on a non-vector value. -/
theorem claim_c3_witness :
    (Pg.resolveKind Pg.PgArguments.empty (ArgumentIndex.Named "who")
        { kleene := none } false
      = .error ("unknown argument: " ++ (ArgumentIndex.Named "who").render))
    ∧ (Pg.resolveKind (Pg.PgArguments.empty.add Pg.sampleVec)
        (ArgumentIndex.Positioned 0) { kleene := some () } false
      = .ok (ArgumentKind.Vector 3, true))
    ∧ (Pg.resolveKind (Pg.PgArguments.empty.add Pg.sampleOk)
        (ArgumentIndex.Positioned 0) { kleene := some () } false
      = .error ("expected vector for argument: "
          ++ (ArgumentIndex.Positioned 0).render))
    ∧ (MySql.resolveKind (MySql.MySqlArguments.empty.add MySql.mySampleOk)
        (ArgumentIndex.Positioned 0) { kleene := none } false
      = .ok (ArgumentKind.Scalar, false)) :=
  ⟨(claim_c3_get_kind_resolution.1 Pg.PgArguments.empty (ArgumentIndex.Named "who")
      { kleene := none } false).1 rfl,
    (claim_c3_get_kind_resolution.1 (Pg.PgArguments.empty.add Pg.sampleVec)
      (ArgumentIndex.Positioned 0) { kleene := some () } false).2.2.1
      Pg.sampleVec 3 rfl rfl rfl,
    (claim_c3_get_kind_resolution.1 (Pg.PgArguments.empty.add Pg.sampleOk)
      (ArgumentIndex.Positioned 0) { kleene := some () } false).2.1
      Pg.sampleOk rfl rfl rfl,
    (claim_c3_get_kind_resolution.2 (MySql.MySqlArguments.empty.add MySql.mySampleOk)
      (ArgumentIndex.Positioned 0) { kleene := none } false).2.2.2
      MySql.mySampleOk rfl rfl⟩

end Sqlx

namespace Sqlx.MySql

theorem getD_eq_getElem (l : List Nat) (n d : Nat) :
    l.getD n d = (l[n]?).getD d := by
  simp [List.getD]

theorem small_testBit_pos (v k : Nat) (hv : v ≤ 1) (hk : 0 < k) :
    v.testBit k = false := by
  apply Nat.testBit_lt_two_pow
  calc v ≤ 1 := hv
    _ < 2 ^ 1 := by decide
    _ ≤ 2 ^ k := Nat.pow_le_pow_right (by decide) hk

theorem testBit_or_shift_self (B v r : Nat) :
    (B ||| v <<< r).testBit r = (B.testBit r || v.testBit 0) := by
  rw [Nat.testBit_or, Nat.testBit_shiftLeft]
  simp

theorem testBit_or_shift_other (B v r j : Nat) (hv : v ≤ 1) (hj : j ≠ r) :
    (B ||| v <<< r).testBit j = B.testBit j := by
  rw [Nat.testBit_or, Nat.testBit_shiftLeft]
  by_cases h : r ≤ j
  · have hz : v.testBit (j - r) = false := small_testBit_pos v (j - r) hv (by omega)
    simp [hz]
  · simp [h]

theorem push_length (m : NullBitMap) (b : IsNull) :
    (m.push b).length = m.length + 1 := rfl

theorem push_bytesLength (m : NullBitMap) (b : IsNull) :
    (m.push b).bytes.length
      = m.bytes.length + (if m.length % 8 = 0 then 1 else 0) := by
  simp only [NullBitMap.push, List.length_set]
  by_cases hr0 : m.length % 8 = 0 <;> simp [hr0]

/-- The value of every bit after a `push`: the fresh bit carries the null
flag, every other bit is unchanged. -/
theorem push_testBit (m : NullBitMap) (b : IsNull) (hwf : m.wf) (i : Nat) :
    (m.push b).testBit i = if i = m.length then b.is_null else m.testBit i := by
  obtain ⟨h1, h2⟩ := hwf
  have hv : (if b.is_null then 1 else 0 : Nat) ≤ 1 := by
    by_cases hb : b.is_null <;> simp [hb]
  have hv0 : (if b.is_null then 1 else 0 : Nat).testBit 0 = b.is_null := by
    by_cases hb : b.is_null <;> simp [hb]
  simp only [NullBitMap.push, NullBitMap.testBit]
  by_cases hr0 : m.length % 8 = 0
  · -- the bit offset wrapped: a fresh zero byte is appended first
    have hbl : m.bytes.length = m.length / 8 := by omega
    simp only [hr0, if_pos, hbl]
    have hlen : (m.bytes ++ [0]).length = m.bytes.length + 1 := by simp
    have hB : (m.bytes ++ [0]).getD (m.length / 8) 0 = 0 := by
      rw [getD_eq_getElem, List.getElem?_append_right (by omega)]
      simp [hbl]
    by_cases hi : i = m.length
    · subst hi
      rw [getD_eq_getElem, List.getElem?_set_eq_of_lt _ (by omega)]
      simp only [Option.getD_some, hr0, hB, if_pos]
      rw [testBit_or_shift_self]
      simp [hv0]
    · simp only [hi, if_neg, if_false]
      by_cases hq : i / 8 = m.length / 8
      · have hjr : i % 8 ≠ m.length % 8 := by omega
        rw [hq, getD_eq_getElem, List.getElem?_set_eq_of_lt _ (by omega)]
        simp only [Option.getD_some]
        rw [hB, testBit_or_shift_other 0 _ _ _ hv (by omega)]
        have hrhs : m.bytes.getD (m.length / 8) 0 = 0 := by
          rw [getD_eq_getElem, List.getElem?_eq_none (by omega)]
          rfl
        rw [hrhs]
      · rw [getD_eq_getElem, List.getElem?_set_ne (by omega)]
        by_cases hlt : i / 8 < m.bytes.length
        · rw [List.getElem?_append_left hlt, ← getD_eq_getElem]
        · have hz1 : (m.bytes ++ [0])[i / 8]? = none := by
            apply List.getElem?_eq_none
            simp
            omega
          have hz2 : m.bytes.getD (i / 8) 0 = 0 := by
            rw [getD_eq_getElem, List.getElem?_eq_none (by omega)]
            rfl
          rw [hz1, hz2]
          rfl
  · -- mid-byte: the existing final byte is updated in place
    have hbl : m.bytes.length = m.length / 8 + 1 := by omega
    simp only [hr0, if_neg, if_false]
    by_cases hi : i = m.length
    · subst hi
      rw [getD_eq_getElem, List.getElem?_set_eq_of_lt _ (by omega)]
      simp only [Option.getD_some]
      rw [testBit_or_shift_self]
      have hold : (m.bytes.getD (m.length / 8) 0).testBit (m.length % 8) = false := by
        have := h2 m.length (Nat.le_refl _)
        simpa [NullBitMap.testBit] using this
      rw [hold, hv0]
      simp
    · simp only [hi, if_neg, if_false]
      by_cases hq : i / 8 = m.length / 8
      · have hjr : i % 8 ≠ m.length % 8 := by omega
        rw [hq, getD_eq_getElem, List.getElem?_set_eq_of_lt _ (by omega)]
        simp only [Option.getD_some]
        rw [testBit_or_shift_other _ _ _ _ hv hjr]
      · rw [getD_eq_getElem, List.getElem?_set_ne (by omega), ← getD_eq_getElem]

/-- `push` preserves well-formedness. -/
theorem push_wf (m : NullBitMap) (b : IsNull) (hwf : m.wf) :
    (m.push b).wf := by
  obtain ⟨h1, h2⟩ := hwf
  constructor
  · rw [push_bytesLength, push_length]
    by_cases hr0 : m.length % 8 = 0 <;> simp [hr0] <;> omega
  · intro i hge
    rw [push_length] at hge
    rw [push_testBit m b ⟨h1, h2⟩ i, if_neg (by omega)]
    exact h2 i (by omega)

end Sqlx.MySql

namespace Sqlx

/-- C6: the null bitmap stores exactly one bit per pushed value,
least-significant-bit first within each byte, appending a fresh zero byte
exactly when the bit offset wraps; pushing
[null, not-null, null, not-null, null, not-null, null, not-null, null]
onto an empty bitmap yields the bytes [0b01010101, 0b00000001]. -/
theorem claim_c6_null_bitmap :
    (∀ (m : MySql.NullBitMap) (b : IsNull), m.wf →
      ((m.push b).length = m.length + 1
        ∧ (m.push b).bytes.length
            = m.bytes.length + (if m.length % 8 = 0 then 1 else 0)
        ∧ (m.push b).testBit m.length = b.is_null
        ∧ (∀ i, i ≠ m.length → (m.push b).testBit i = m.testBit i)
        ∧ (m.push b).wf))
    ∧ (List.foldl MySql.NullBitMap.push MySql.NullBitMap.empty
        [IsNull.Yes, IsNull.No, IsNull.Yes, IsNull.No, IsNull.Yes, IsNull.No,
          IsNull.Yes, IsNull.No, IsNull.Yes]).bytes
      = [0b01010101, 0b00000001] := by
  refine ⟨fun m b hwf => ⟨MySql.push_length m b, MySql.push_bytesLength m b,
    ?_, ?_, MySql.push_wf m b hwf⟩, by decide⟩
  · rw [MySql.push_testBit m b hwf, if_pos rfl]
  · intro i hi
    rw [MySql.push_testBit m b hwf, if_neg hi]

/-- C6 witness: one concrete push onto the (well-formed) empty bitmap. -/
theorem claim_c6_witness :
    (MySql.NullBitMap.empty.push IsNull.Yes).length
      = MySql.NullBitMap.empty.length + 1
    ∧ (MySql.NullBitMap.empty.push IsNull.Yes).bytes.length
        = MySql.NullBitMap.empty.bytes.length
          + (if MySql.NullBitMap.empty.length % 8 = 0 then 1 else 0)
    ∧ (MySql.NullBitMap.empty.push IsNull.Yes).testBit
        MySql.NullBitMap.empty.length = IsNull.Yes.is_null
    ∧ (MySql.NullBitMap.empty.push IsNull.Yes).testBit 5
        = MySql.NullBitMap.empty.testBit 5 :=
  have h := claim_c6_null_bitmap.1 MySql.NullBitMap.empty IsNull.Yes
    ⟨rfl, fun i _ => by simp [MySql.NullBitMap.testBit, MySql.NullBitMap.empty]⟩
  ⟨h.1, h.2.1, h.2.2.1, h.2.2.2.1 5 (by decide)⟩

end Sqlx

namespace Sqlx.Any

theorem convertAllPg_length :
    ∀ (l : List AnyValue) (pvs : List Pg.PgValue),
      convertAllPg l = .ok pvs → pvs.length = l.length := by
  intro l
  induction l with
  | nil =>
    intro pvs h
    simp [convertAllPg] at h
    simp [← h]
  | cons v rest ih =>
    intro pvs h
    unfold convertAllPg at h
    rcases hv : v.toPg with e | pv
    · rw [hv] at h
      simp at h
    · rw [hv] at h
      rcases hr : convertAllPg rest with e | pvs2
      · rw [hr] at h
        simp at h
      · rw [hr] at h
        simp at h
        rw [← h]
        simp [ih pvs2 hr]

end Sqlx.Any

namespace Sqlx.Pg

theorem addRefAll_ok_types :
    ∀ (l : List PgValue) (s out : PgArgumentsInner),
      addRefAll s l = .ok out → out.types.length = s.types.length + l.length := by
  intro l
  induction l with
  | nil =>
    intro s out h
    simp [addRefAll] at h
    simp [← h]
  | cons v rest ih =>
    intro s out h
    unfold addRefAll at h
    rcases hc : s.add_ref v with ⟨s1, err⟩
    rw [hc] at h
    cases err with
    | none =>
      have hsucc : (s.add v).2 = none := by
        rw [← add_ref_eq_add, hc]
      have hlen := (add_success_counts s v hsucc).1
      rw [← add_ref_eq_add, hc] at hlen
      have := ih s1 out h
      rw [this, hlen, List.length_cons]
      omega
    | some e => simp at h

/-- A generic value that converts successfully. -/
def anySampleVal : Sqlx.Any.AnyValue := ⟨.ok sampleOk⟩

/-- A generic value whose conversion into the concrete backend fails. -/
def anyFailVal : Sqlx.Any.AnyValue := ⟨.error "conv"⟩

end Sqlx.Pg

namespace Sqlx

/-- C4 counterexample: a bag holding one named value.  The Postgres
facade's `sql_and_args` succeeds, returns the SQL verbatim (the named
placeholder is still in it, unexpanded), and produces an empty positional
buffer: the named value was neither consumed by any rewrite nor did it
cause an error — it was silently discarded, contradicting the claim. -/
theorem claim_c4_counterexample :
    Pg.sql_and_args "select * from t where name = :a"
        (some { positional := [], named := [("a", Pg.anySampleVal)] })
      = .ok ("select * from t where name = :a", some Pg.PgArgumentsInner.empty)
    ∧ ([("a", Pg.anySampleVal)] : List (String × Any.AnyValue)).length = 1 :=
  ⟨rfl, rfl⟩

/-- C4 amended: the Postgres facade converts the generic bag's positional
and named values (a positional conversion failure surfaces as an error),
then builds the strictly positional buffer from the positional values
only and returns the SQL unchanged, without running placeholder
expansion; successfully converted named values are discarded without
error (the result does not depend on them), while every positional value
is consumed into the buffer. -/
theorem claim_c4_amended :
    (∀ (q : String) (pos : List Any.AnyValue) (nmd : List (String × Any.AnyValue))
        (lnm : List (String × Pg.PgValue)),
      Any.convertNamedPg nmd = .ok lnm →
        Pg.sql_and_args q (some { positional := pos, named := nmd })
          = Pg.sql_and_args q (some { positional := pos, named := [] }))
    ∧ (∀ (q : String) (bag : Any.AnyArguments) (e : String),
      Any.convertAllPg bag.positional = .error e →
        Pg.sql_and_args q (some bag) = .error e)
    ∧ (∀ (q : String) (bag : Any.AnyArguments)
        (res : String × Option Pg.PgArgumentsInner),
      Pg.sql_and_args q (some bag) = .ok res →
        res.1 = q
        ∧ ∀ inner, res.2 = some inner →
            inner.types.length = bag.positional.length) := by
  refine ⟨fun q pos nmd lnm hn => ?_, fun q bag e he => ?_, fun q bag res hres => ?_⟩
  · simp only [Pg.sql_and_args, Any.AnyArguments.convert_into_pg]
    rcases hp : Any.convertAllPg pos with e | pos2
    · rfl
    · simp only [hn]
      rfl
  · simp only [Pg.sql_and_args, Any.AnyArguments.convert_into_pg, he]
  · simp only [Pg.sql_and_args, Any.AnyArguments.convert_into_pg,
      Pg.PgArguments.try_into_only_positional] at hres
    rcases hp : Any.convertAllPg bag.positional with e | pos2
    · rw [hp] at hres
      simp at hres
    · rw [hp] at hres
      rcases hn : Any.convertNamedPg bag.named with e | lnm
      · rw [hn] at hres
        simp at hres
      · rw [hn] at hres
        rcases ha : Pg.addRefAll Pg.PgArgumentsInner.empty pos2 with e | inner
        · simp only [ha] at hres
          simp at hres
        · simp only [ha] at hres
          simp at hres
          rw [← hres]
          refine ⟨rfl, fun inner2 hi => ?_⟩
          simp at hi
          rw [← hi]
          have h1 := Pg.addRefAll_ok_types pos2 Pg.PgArgumentsInner.empty inner ha
          have h2 := Any.convertAllPg_length bag.positional pos2 hp
          simp [Pg.PgArgumentsInner.empty] at h1
          rw [h1, h2]

/-- C4 amended witness: concrete bags exercising the named-independence,
the failure surfacing, and the positional consumption. -/
theorem claim_c4_amended_witness :
    (Pg.sql_and_args "select 1"
        (some { positional := [Pg.anySampleVal], named := [("a", Pg.anySampleVal)] })
      = Pg.sql_and_args "select 1"
        (some { positional := [Pg.anySampleVal], named := [] }))
    ∧ (Pg.sql_and_args "select 1"
        (some { positional := [Pg.anyFailVal], named := [] })
      = .error "conv")
    ∧ ("select 1", some ((Pg.PgArgumentsInner.empty.add_ref Pg.sampleOk).1)).1
        = "select 1" := by
  refine ⟨?_, ?_, ?_⟩
  · exact claim_c4_amended.1 "select 1" [Pg.anySampleVal] [("a", Pg.anySampleVal)]
      [("a", Pg.sampleOk)] rfl
  · exact claim_c4_amended.2.1 "select 1"
      { positional := [Pg.anyFailVal], named := [] } "conv" rfl
  · exact (claim_c4_amended.2.2 "select 1"
      { positional := [Pg.anySampleVal], named := [] }
      ("select 1", some ((Pg.PgArgumentsInner.empty.add_ref Pg.sampleOk).1)) rfl).1

end Sqlx
